import Mathlib

/-!
Shallow embedding of `src/lib/tokenizers.ts` (the tokenizer routing and
cache layer): `loadTiktoken`, `loadLlamaTokenizer`, the two counting
strategies, the auto-router, the chat counter, cache diagnostics, cache
clearing and the encode/decode round-trip check.

Modelling conventions:
* The module's process-wide mutable state (the tiktoken cache `Map`, the
  llama singleton, and the reading of `performance.now()` / `Date.now()`)
  becomes an explicit `World` record threaded through every function.
  Each reading of a clock returns the current `clock` field and advances
  it by one, so elapsed-time fields are observable differences of clock
  readings.
* The external `tiktoken` package (`get_encoding` and the encoder objects
  it returns) is an `Env` parameter: `get_encoding` may fail, and an
  encoder's `encode` / `decode` may fail, exactly the failure points the
  TypeScript wraps in try/catch.  Encoder outputs are heterogeneous
  JavaScript values; the shapes `normalizeEncodeResult` and
  `normalizeDecodeResult` distinguish become the inductives `EncRaw` and
  `DecRaw`.
* JavaScript exceptions become `Except String`; a JS function that can
  throw returns `Except String α × World` (side effects performed before
  the throw persist, as in JS).
* `String.prototype.toLowerCase` on the ASCII model identifiers is
  `lowerStr` (element-wise `Char.toLower`); `String.prototype.includes`
  is `strIncludes`; `text.length` is the Lean `String.length`.
-/

/-- Element-wise ASCII lowercasing, the embedding of `model.toLowerCase()`. -/
def lowerStr (s : String) : String := String.mk (s.data.map Char.toLower)

/-- Tests whether `pat` occurs at the start of `s` (substring helper). -/
def charsStartWith (pat s : List Char) : Bool :=
  match pat, s with
  | [], _ => true
  | _ :: _, [] => false
  | p :: ps, c :: cs => p == c && charsStartWith ps cs

/-- Tests whether `pat` occurs contiguously somewhere in `s`. -/
def charsContain (s pat : List Char) : Bool :=
  match s with
  | [] => pat.isEmpty
  | _ :: rest => charsStartWith pat s || charsContain rest pat

/-- The embedding of JavaScript `s.includes(pat)`. -/
def strIncludes (s pat : String) : Bool := charsContain s.data pat.data

/-- Association-list lookup, the embedding of `Map.get` / record indexing
with string keys. -/
def alookup {β : Type} (k : String) : List (String × β) → Option β
  | [] => none
  | (k', v) :: rest => if k' = k then some v else alookup k rest

/-- The heterogeneous shapes an encoder's `encode` may return, as
distinguished by `normalizeEncodeResult`: a plain `Array`, a
`Uint32Array` / `Uint16Array` / `Uint8Array`, some other array-like value
that `Array.from` can consume, or a value on which `Array.from` throws. -/
inductive EncRaw : Type
  | arr (xs : List Int)
  | u32 (xs : List Nat)
  | u16 (xs : List Nat)
  | u8 (xs : List Nat)
  | arrayLike (xs : List Int)
  | exotic
deriving Repr, DecidableEq

/-- The heterogeneous shapes an encoder's `decode` may return, as
distinguished by `normalizeDecodeResult`: a string, a `Uint8Array` holding
UTF-8 bytes (modelled by the string those bytes decode to), some other
value `String(·)` can render, or a value on which the coercion throws. -/
inductive DecRaw : Type
  | str (s : String)
  | bytes (s : String)
  | strLike (s : String)
  | exotic
deriving Repr, DecidableEq

/-- Embedding of `normalizeEncodeResult`: coerce an encode result to a plain
integer array.  Total — the TypeScript's final `try { Array.from } catch`
means it never throws. -/
def normalizeEncodeResult : EncRaw → List Int
  | .arr xs => xs
  | .u32 xs => xs.map Int.ofNat
  | .u16 xs => xs.map Int.ofNat
  | .u8 xs => xs.map Int.ofNat
  | .arrayLike xs => xs
  | .exotic => []

/-- Embedding of `normalizeDecodeResult`: coerce a decode result to a
string; `Uint8Array` bytes are decoded as UTF-8. -/
def normalizeDecodeResult : DecRaw → String
  | .str s => s
  | .bytes s => s
  | .strLike s => s
  | .exotic => ""

/-- An encoder handle returned by `tiktoken`'s `get_encoding`: `encode`
and `decode` may throw.  `decode` receives the `Uint32Array` contents as
a list of naturals. -/
structure Encoder : Type where
  encName : String
  encode : String → Except String EncRaw
  decode : List Nat → Except String DecRaw

/-- The external `tiktoken` package: `get_encoding` may throw. -/
structure Env : Type where
  get_encoding : String → Except String Encoder

/-- One tiktoken cache entry (`TiktokenCacheEntry`). -/
structure CacheEntry : Type where
  encoding : Encoder
  model : String
  loadedAt : Nat

/-- The module's process-wide state: the tiktoken cache (a JS `Map`, so an
insertion-ordered association list), the llama singleton (storing the
underlying `cl100k_base` encoder its wrapper closes over), and the clock
read by `performance.now()` / `Date.now()`. -/
structure World : Type where
  tiktokenCache : List (String × CacheEntry)
  llamaTokenizerCache : Option Encoder
  clock : Nat

/-- Advance the modelled clock by one step. -/
def tick (w : World) : World := { w with clock := w.clock + 1 }

/-- A clock reading: returns the current time and advances the clock. -/
def now (w : World) : Nat × World := (w.clock, tick w)

/-- Embedding of `ENCODING_MAP`: the static model-name → encoding-scheme table. -/
def ENCODING_MAP : List (String × String) :=
  [("gpt-4", "cl100k_base"),
   ("gpt-4-turbo", "cl100k_base"),
   ("gpt-4o", "o200k_base"),
   ("gpt-4o-mini", "o200k_base"),
   ("gpt-3.5-turbo", "cl100k_base"),
   ("gpt-3.5-turbo-16k", "cl100k_base"),
   ("text-embedding-ada-002", "cl100k_base"),
   ("text-embedding-3-small", "cl100k_base"),
   ("text-embedding-3-large", "cl100k_base"),
   ("text-davinci-003", "p50k_base"),
   ("text-davinci-002", "p50k_base"),
   ("davinci", "r50k_base"),
   ("curie", "r50k_base"),
   ("babbage", "r50k_base"),
   ("ada", "r50k_base")]

/-- The encoding name `loadTiktoken` selects on a cache miss:
`ENCODING_MAP[key] || ENCODING_MAP[model] || "cl100k_base"` with
`key = model.toLowerCase()`. -/
def resolveName (model : String) : String :=
  match alookup (lowerStr model) ENCODING_MAP with
  | some n => n
  | none =>
    match alookup model ENCODING_MAP with
    | some n => n
    | none => "cl100k_base"

/-- Embedding of `loadTiktoken(model)`: return the cached encoder for the lower-cased
key, or on a miss resolve the scheme, instantiate an encoder (which may
throw, propagated uncaught after the `console.error`), record it with a
`Date.now()` timestamp and return it. -/
def loadTiktoken (env : Env) (model : String) (w : World) :
    Except String Encoder × World :=
  let (_start, w) := now w
  let key := lowerStr model
  match alookup key w.tiktokenCache with
  | some entry => (.ok entry.encoding, w)
  | none =>
    match env.get_encoding (resolveName model) with
    | .error e => (.error e, w)
    | .ok encoding =>
      let (t, w) := now w
      (.ok encoding,
       { w with tiktokenCache :=
           w.tiktokenCache ++ [(key, ⟨encoding, model, t⟩)] })

/-- Embedding of `loadLlamaTokenizer()`: return the singleton if present, else
instantiate the `cl100k_base` encoder (failure propagates uncaught) and
store it. -/
def loadLlamaTokenizer (env : Env) (w : World) :
    Except String Encoder × World :=
  match w.llamaTokenizerCache with
  | some e => (.ok e, w)
  | none =>
    match env.get_encoding "cl100k_base" with
    | .error err => (.error err, w)
    | .ok e => (.ok e, { w with llamaTokenizerCache := some e })

/-- The `encode` closure of the llama wrapper: the underlying encoder's
`encode` (which may throw, uncaught here) followed by
`normalizeEncodeResult`. -/
def llamaEncode (e : Encoder) (text : String) : Except String (List Int) :=
  (e.encode text).map normalizeEncodeResult

/-- JavaScript `ToUint32` on a token value, applied by
`new Uint32Array(tokens)`. -/
def toUint32 (i : Int) : Nat := (i % (2 ^ 32 : Int)).toNat

/-- The `decode` closure of the llama wrapper: convert to `Uint32Array`,
decode, normalize; any failure is caught and yields `""`. -/
def llamaDecode (e : Encoder) (tokens : List Int) : String :=
  match e.decode (tokens.map toUint32) with
  | .ok d => normalizeDecodeResult d
  | .error _ => ""

/-- Embedding of `TokenizerResult`: a token count and the elapsed milliseconds. -/
structure TokenizerResult : Type where
  tokens : Nat
  timeMs : Nat
deriving Repr, DecidableEq

/-- The fallback estimate `Math.max(1, Math.ceil(text.length / 4))`. -/
def fallbackEstimate (text : String) : Nat := max 1 ((text.length + 3) / 4)

/-- Embedding of `countTokensWithTiktoken(text, model)`: load the encoder, encode,
normalize, report length and elapsed time; any failure is caught and the
fallback estimate is reported instead (with elapsed time still measured).
Total: it never throws. -/
def countTokensWithTiktoken (env : Env) (text model : String) (w : World) :
    TokenizerResult × World :=
  let (start, w) := now w
  match loadTiktoken env model w with
  | (.ok encoding, w) =>
    match encoding.encode text with
    | .ok raw =>
      let tokens := normalizeEncodeResult raw
      let (stop, w) := now w
      ({ tokens := tokens.length, timeMs := stop - start }, w)
    | .error _ =>
      let (stop, w) := now w
      ({ tokens := fallbackEstimate text, timeMs := stop - start }, w)
  | (.error _, w) =>
    let (stop, w) := now w
    ({ tokens := fallbackEstimate text, timeMs := stop - start }, w)

/-- Embedding of `countTokensWithLlama(text)`: same shape as the exact strategy but
through the llama singleton wrapper. -/
def countTokensWithLlama (env : Env) (text : String) (w : World) :
    TokenizerResult × World :=
  let (start, w) := now w
  match loadLlamaTokenizer env w with
  | (.ok tokenizer, w) =>
    match llamaEncode tokenizer text with
    | .ok tokens =>
      let (stop, w) := now w
      ({ tokens := tokens.length, timeMs := stop - start }, w)
    | .error _ =>
      let (stop, w) := now w
      ({ tokens := fallbackEstimate text, timeMs := stop - start }, w)
  | (.error _, w) =>
    let (stop, w) := now w
    ({ tokens := fallbackEstimate text, timeMs := stop - start }, w)

/-- The OpenAI-family substring set from the auto-router. -/
def OPENAI_SUBSTRINGS : List String :=
  ["gpt", "text-", "davinci", "curie", "babbage", "ada"]

/-- The Llama-family substring set from the auto-router. -/
def LLAMA_SUBSTRINGS : List String :=
  ["llama", "mistral", "mixtral", "codellama", "vicuna", "alpaca"]

/-- Holds when `lower.includes(p)` for some `p` in the OpenAI-family set. -/
def isOpenAIModel (model : String) : Bool :=
  OPENAI_SUBSTRINGS.any (fun p => strIncludes (lowerStr model) p)

/-- Holds when `lower.includes(p)` for some `p` in the Llama-family set. -/
def isLlamaModel (model : String) : Bool :=
  LLAMA_SUBSTRINGS.any (fun p => strIncludes (lowerStr model) p)

/-- Embedding of `countTokensAuto(text, model)`: classify the lower-cased identifier,
dispatch to a strategy (OpenAI first, llama second, `"gpt-4"` default),
and re-report the elapsed time end-to-end across the dispatch. -/
def countTokensAuto (env : Env) (text model : String) (w : World) :
    TokenizerResult × World :=
  let (start, w) := now w
  let isOpenAI := isOpenAIModel model
  let isLlama := isLlamaModel model
  let (res, w) :=
    if isOpenAI then countTokensWithTiktoken env text model w
    else if isLlama then countTokensWithLlama env text w
    else countTokensWithTiktoken env text "gpt-4" w
  let (stop, w) := now w
  ({ tokens := res.tokens, timeMs := stop - start }, w)

/-- Embedding of `ChatMessage`. -/
structure ChatMessage : Type where
  role : String
  content : String

/-- The loop body of `countChatTokens`: accumulate per-message overhead
and normalized encode lengths; an encode failure escapes the loop. -/
def chatLoop (encoding : Encoder) (msgs : List ChatMessage) (total : Nat) :
    Except String Nat :=
  match msgs with
  | [] => .ok total
  | m :: rest =>
    match encoding.encode m.role with
    | .error e => .error e
    | .ok rawRole =>
      match encoding.encode m.content with
      | .error e => .error e
      | .ok rawContent =>
        chatLoop encoding rest
          (total + 4 + (normalizeEncodeResult rawRole).length
                 + (normalizeEncodeResult rawContent).length)

/-- Embedding of `countChatTokens(messages, model = "gpt-4")`: load the encoder
(failure propagates uncaught), then 3 base tokens plus, per message,
4 tokens plus the normalized encoded lengths of role and content. -/
def countChatTokens (env : Env) (msgs : List ChatMessage)
    (model : String) (w : World) : Except String Nat × World :=
  match loadTiktoken env model w with
  | (.error e, w) => (.error e, w)
  | (.ok encoding, w) => (chatLoop encoding msgs 3, w)

/-- The record `getCacheStats` returns. -/
structure CacheStats : Type where
  tiktokenEntries : Nat
  llamaLoaded : Bool
  models : List String
  oldestEntry : Option Nat
deriving Repr, DecidableEq

/-- Embedding of `getCacheStats()`: entry count, llama-singleton flag, the cache keys
in insertion order, and `Math.min` over the `loadedAt` timestamps (or
`null` when the cache is empty).  Pure: it takes no lock on the world and
returns none. -/
def getCacheStats (w : World) : CacheStats :=
  let models := w.tiktokenCache.map Prod.fst
  let oldest :=
    match w.tiktokenCache.map (fun p => p.2.loadedAt) with
    | [] => none
    | t :: ts => some (ts.foldl Nat.min t)
  { tiktokenEntries := w.tiktokenCache.length
    llamaLoaded := w.llamaTokenizerCache.isSome
    models := models
    oldestEntry := oldest }

/-- Embedding of `clearTokenizerCache()`: best-effort `free()` on every entry (no
observable effect in the model), delete every entry, drop the llama
singleton. -/
def clearTokenizerCache (w : World) : World :=
  { w with tiktokenCache := [], llamaTokenizerCache := none }

/-- Embedding of `assertEncodeDecodeRoundtrip(text, model = "gpt-4")`: encode,
normalize, rebuild a `Uint32Array`, decode, normalize, compare with the
original text; any failure along the way is caught and yields `false`. -/
def assertEncodeDecodeRoundtrip (env : Env) (text model : String)
    (w : World) : Bool × World :=
  match loadTiktoken env model w with
  | (.error _, w) => (false, w)
  | (.ok enc, w) =>
    match enc.encode text with
    | .error _ => (false, w)
    | .ok raw =>
      let arr := normalizeEncodeResult raw
      match enc.decode (arr.map toUint32) with
      | .error _ => (false, w)
      | .ok decRaw => (normalizeDecodeResult decRaw == text, w)

/-! ## Test fixtures (shared by witnesses) -/

/-- A concrete well-behaved encoder: codepoint-per-token encoding whose
decode inverts it on valid codepoints. -/
def testEncoder : Encoder where
  encName := "cl100k_base"
  encode := fun s => .ok (.arr (s.data.map (fun c => Int.ofNat c.toNat)))
  decode := fun ts => .ok (.str (String.mk (ts.map Char.ofNat)))

/-- An environment in which every scheme loads the well-behaved encoder. -/
def testEnv : Env := ⟨fun _ => .ok testEncoder⟩

/-- An encoder that loads fine but whose encode and decode always throw. -/
def badEncoder : Encoder where
  encName := "cl100k_base"
  encode := fun _ => .error "boom"
  decode := fun _ => .error "boom"

/-- An environment whose encoders always fail to encode. -/
def badEnv : Env := ⟨fun _ => .ok badEncoder⟩

/-- An environment in which loading any encoder resource fails. -/
def failEnv : Env := ⟨fun _ => .error "load failed"⟩

/-- The fresh module state: empty cache, no llama singleton. -/
def w0 : World := ⟨[], none, 0⟩

/-- Some step of the exact strategy fails: the encoder load throws, or
the encode call throws. -/
def exactStrategyFails (env : Env) (text model : String) (w : World) :
    Bool :=
  match loadTiktoken env model w with
  | (.error _, _) => true
  | (.ok enc, _) =>
    match enc.encode text with
    | .error _ => true
    | .ok _ => false

/-- Some step of the approximate strategy fails: the singleton load
throws, or the wrapped encode call throws. -/
def llamaStrategyFails (env : Env) (text : String) (w : World) : Bool :=
  match loadLlamaTokenizer env w with
  | (.error _, _) => true
  | (.ok e, _) =>
    match llamaEncode e text with
    | .error _ => true
    | .ok _ => false

/-- The encode call on `s` succeeds for encoder `e`. -/
def encOk (e : Encoder) (s : String) : Bool :=
  match e.encode s with
  | .ok _ => true
  | .error _ => false

/-- The normalized encoded length of `s` under encoder `e` (0 when the
encode call fails; only used under an `encOk` hypothesis). -/
def encLen (e : Encoder) (s : String) : Nat :=
  match e.encode s with
  | .ok raw => (normalizeEncodeResult raw).length
  | .error _ => 0

/-- The reachable-state invariant: every cache key is the lower-cased
form of the model identifier stored in its entry. -/
def keysLower (w : World) : Prop :=
  ∀ p ∈ w.tiktokenCache, p.1 = lowerStr p.2.model

/-- A two-entry state with mixed-case stored identifiers, a loaded llama
singleton, and distinct timestamps. -/
def wStats : World :=
  ⟨[("gpt-4", ⟨testEncoder, "GPT-4", 5⟩),
    ("ada", ⟨testEncoder, "Ada", 4⟩)], some testEncoder, 9⟩

/-! ## Helper lemmas -/

lemma alookup_mem {β : Type} (k : String) (l : List (String × β)) (v : β)
    (h : alookup k l = some v) : k ∈ l.map Prod.fst := by
  induction l with
  | nil => simp [alookup] at h
  | cons p rest ih =>
    rw [alookup] at h
    by_cases hk : p.1 = k
    · simp [hk]
    · simp only [hk, if_false] at h
      simp [ih h]

lemma alookup_append_right {β : Type} (k : String)
    (l1 l2 : List (String × β)) (h : alookup k l1 = none) :
    alookup k (l1 ++ l2) = alookup k l2 := by
  induction l1 with
  | nil => simp
  | cons p rest ih =>
    rw [alookup] at h
    by_cases hk : p.1 = k
    · simp [hk] at h
    · simp only [List.cons_append, alookup, hk, if_false] at *
      exact ih h

lemma encodingMap_keys_lower :
    ∀ p ∈ ENCODING_MAP, lowerStr p.1 = p.1 := by decide

lemma loadTiktoken_eq (env : Env) (model : String) (w : World) :
    loadTiktoken env model w =
      match alookup (lowerStr model) w.tiktokenCache with
      | some entry => (.ok entry.encoding, tick w)
      | none =>
        match env.get_encoding (resolveName model) with
        | .error e => (.error e, tick w)
        | .ok encoding =>
          (.ok encoding,
           { tiktokenCache :=
               w.tiktokenCache
                 ++ [(lowerStr model, ⟨encoding, model, w.clock + 1⟩)],
             llamaTokenizerCache := w.llamaTokenizerCache,
             clock := w.clock + 2 }) := by
  cases h : alookup (lowerStr model) w.tiktokenCache with
  | some entry => simp [loadTiktoken, now, tick, h]
  | none =>
    cases hg : env.get_encoding (resolveName model) with
    | error e => simp [loadTiktoken, now, tick, h, hg]
    | ok encoding => simp [loadTiktoken, now, tick, h, hg]

/-! ## C8: `normalizeEncodeResult` is total and branch-correct -/

/-- C8: `normalizeEncodeResult` never throws (it is a total function on
every raw shape): a plain array is returned as-is, a `Uint8Array` /
`Uint16Array` / `Uint32Array` is converted element-wise to a plain
integer sequence, a generic array-like is coerced, and a value on which
the coercion throws yields the empty sequence. -/
theorem normalizeEncodeResult_spec (xs : List Int) (ns : List Nat) :
    normalizeEncodeResult (.arr xs) = xs
    ∧ normalizeEncodeResult (.u8 ns) = ns.map Int.ofNat
    ∧ normalizeEncodeResult (.u16 ns) = ns.map Int.ofNat
    ∧ normalizeEncodeResult (.u32 ns) = ns.map Int.ofNat
    ∧ normalizeEncodeResult (.arrayLike xs) = xs
    ∧ normalizeEncodeResult .exotic = [] := by
  refine ⟨rfl, rfl, rfl, rfl, rfl, rfl⟩

/-! ## C6: encoding resolution -/

/-- C6: for every identifier whose lower-cased form is a key of
`ENCODING_MAP`, resolution selects the table's declared scheme; for every
other identifier it selects `"cl100k_base"`.  `resolveName` is a total
function, so resolution is defined for every input string. -/
theorem resolveName_spec (model : String) :
    (∀ s, alookup (lowerStr model) ENCODING_MAP = some s →
       resolveName model = s)
    ∧ (alookup (lowerStr model) ENCODING_MAP = none →
       resolveName model = "cl100k_base") := by
  constructor
  · intro s h
    unfold resolveName
    rw [h]
  · intro h
    have h2 : alookup model ENCODING_MAP = none := by
      cases hm : alookup model ENCODING_MAP with
      | none => rfl
      | some v =>
        exfalso
        have hmem := alookup_mem model ENCODING_MAP v hm
        simp only [List.mem_map] at hmem
        obtain ⟨p, hp, hpk⟩ := hmem
        have hlow : lowerStr model = model := by
          rw [← hpk]
          exact encodingMap_keys_lower p hp
        rw [hlow, hm] at h
        exact Option.noConfusion h
    unfold resolveName
    rw [h, h2]

/-- Witness for C6 at a table key and at an unknown identifier. -/
theorem resolveName_spec_witness :
    resolveName "TEXT-Davinci-003" = "p50k_base"
    ∧ resolveName "totally-unknown-model" = "cl100k_base" :=
  ⟨(resolveName_spec "TEXT-Davinci-003").1 "p50k_base" (by decide),
   (resolveName_spec "totally-unknown-model").2 (by decide)⟩

/-! ## C5: load failure leaves the cache untouched -/

/-- C5: on a cache miss, if encoder resource instantiation fails the
failure propagates uncaught and the returned world's cache (and llama
singleton) are exactly what they were before the call — no partial entry
is inserted. -/
theorem loadTiktoken_failure_preserves_cache (env : Env) (model : String)
    (w : World) (err : String)
    (hmiss : alookup (lowerStr model) w.tiktokenCache = none)
    (herr : env.get_encoding (resolveName model) = .error err) :
    loadTiktoken env model w = (.error err, tick w) := by
  rw [loadTiktoken_eq, hmiss, herr]

/-- Witness for C5: a failing provider on the fresh state. -/
theorem loadTiktoken_failure_preserves_cache_witness :
    loadTiktoken failEnv "gpt-4" w0 = (.error "load failed", tick w0) :=
  loadTiktoken_failure_preserves_cache failEnv "gpt-4" w0 "load failed"
    rfl rfl

/-! ## C4: cache idempotence across case variants -/

/-- C4: after a successful `loadTiktoken` for one identifier, a second
call with any identifier sharing the same lower-cased form returns the
very same cached encoder handle and leaves the whole world unchanged
except for the clock reading — so no second entry is created and the
entry's `loadedAt` timestamp is not refreshed. -/
theorem loadTiktoken_cached_idempotent (env : Env) (m1 m2 : String)
    (w w1 : World) (e : Encoder)
    (hcase : lowerStr m1 = lowerStr m2)
    (h1 : loadTiktoken env m1 w = (.ok e, w1)) :
    loadTiktoken env m2 w1 = (.ok e, tick w1) := by
  rw [loadTiktoken_eq] at h1
  have hfind : ∃ entry, alookup (lowerStr m1) w1.tiktokenCache = some entry
      ∧ entry.encoding = e := by
    cases hc : alookup (lowerStr m1) w.tiktokenCache with
    | some entry =>
      rw [hc] at h1
      simp only [Prod.mk.injEq, Except.ok.injEq] at h1
      obtain ⟨he, hw⟩ := h1
      exact ⟨entry, by rw [← hw]; simpa [tick] using hc, he⟩
    | none =>
      rw [hc] at h1
      cases hg : env.get_encoding (resolveName m1) with
      | error err => rw [hg] at h1; simp at h1
      | ok encoding =>
        rw [hg] at h1
        simp only [Prod.mk.injEq, Except.ok.injEq] at h1
        obtain ⟨he, hw⟩ := h1
        refine ⟨⟨encoding, m1, w.clock + 1⟩, ?_, he⟩
        have hl := alookup_append_right (lowerStr m1) w.tiktokenCache
          [(lowerStr m1, ⟨encoding, m1, w.clock + 1⟩)] hc
        rw [← hw]
        simpa [alookup] using hl
  obtain ⟨entry, hfind, henc⟩ := hfind
  rw [loadTiktoken_eq, ← hcase, hfind]
  simp [henc]

/-- Witness for C4: load `"GPT-4"` into the fresh state, then load
`"gpt-4"` and get the same handle back with the world unchanged but for
the clock. -/
theorem loadTiktoken_cached_idempotent_witness :
    loadTiktoken testEnv "gpt-4"
        (loadTiktoken testEnv "GPT-4" w0).2
      = (.ok testEncoder, tick (loadTiktoken testEnv "GPT-4" w0).2) :=
  loadTiktoken_cached_idempotent testEnv "GPT-4" "gpt-4" w0
    (loadTiktoken testEnv "GPT-4" w0).2 testEncoder (by decide) rfl

/-! ## C2: strategy fallback on failure -/

/-- C2: if any step of the exact strategy fails,
`countTokensWithTiktoken` returns the fallback estimate
`max(1, ceil(text.length / 4))`; the same holds for
`countTokensWithLlama`; in every case (success or fallback) the reported
`timeMs` is the difference of the two clock readings the strategy takes,
and both strategies are total functions — neither ever throws to its
caller. -/
theorem countStrategies_fallback (env : Env) (text model : String)
    (w : World) :
    (exactStrategyFails env text model (tick w) = true →
      (countTokensWithTiktoken env text model w).1.tokens
        = max 1 ((text.length + 3) / 4))
    ∧ (countTokensWithTiktoken env text model w).1.timeMs
        = (countTokensWithTiktoken env text model w).2.clock - 1 - w.clock
    ∧ (llamaStrategyFails env text (tick w) = true →
      (countTokensWithLlama env text w).1.tokens
        = max 1 ((text.length + 3) / 4))
    ∧ (countTokensWithLlama env text w).1.timeMs
        = (countTokensWithLlama env text w).2.clock - 1 - w.clock := by
  have hex : ∀ r : Except String Encoder × World,
      loadTiktoken env model (tick w) = r →
      (exactStrategyFails env text model (tick w) = true →
        (countTokensWithTiktoken env text model w).1.tokens
          = max 1 ((text.length + 3) / 4))
      ∧ (countTokensWithTiktoken env text model w).1.timeMs
          = (countTokensWithTiktoken env text model w).2.clock - 1
              - w.clock := by
    rintro ⟨exc, w2⟩ hL
    cases exc with
    | error err =>
      constructor
      · intro _
        simp [countTokensWithTiktoken, now, hL, fallbackEstimate]
      · simp only [countTokensWithTiktoken, now]
        rw [hL]
        simp [tick]
    | ok enc =>
      cases henc : enc.encode text with
      | error err =>
        constructor
        · intro _
          simp [countTokensWithTiktoken, now, hL, henc, fallbackEstimate]
        · simp only [countTokensWithTiktoken, now]
          rw [hL]
          simp [tick, henc]
      | ok raw =>
        constructor
        · intro hfail
          exfalso
          rw [exactStrategyFails, hL] at hfail
          simp [henc] at hfail
        · simp only [countTokensWithTiktoken, now]
          rw [hL]
          simp [tick, henc]
  have hll : ∀ r : Except String Encoder × World,
      loadLlamaTokenizer env (tick w) = r →
      (llamaStrategyFails env text (tick w) = true →
        (countTokensWithLlama env text w).1.tokens
          = max 1 ((text.length + 3) / 4))
      ∧ (countTokensWithLlama env text w).1.timeMs
          = (countTokensWithLlama env text w).2.clock - 1 - w.clock := by
    rintro ⟨exc, w2⟩ hL
    cases exc with
    | error err =>
      constructor
      · intro _
        simp [countTokensWithLlama, now, hL, fallbackEstimate]
      · simp only [countTokensWithLlama, now]
        rw [hL]
        simp [tick]
    | ok enc =>
      cases henc : llamaEncode enc text with
      | error err =>
        constructor
        · intro _
          simp [countTokensWithLlama, now, hL, henc, fallbackEstimate]
        · simp only [countTokensWithLlama, now]
          rw [hL]
          simp [tick, henc]
      | ok tokens =>
        constructor
        · intro hfail
          exfalso
          rw [llamaStrategyFails, hL] at hfail
          simp [henc] at hfail
        · simp only [countTokensWithLlama, now]
          rw [hL]
          simp [tick, henc]
  obtain ⟨h1, h2⟩ := hex (loadTiktoken env model (tick w)) rfl
  obtain ⟨h3, h4⟩ := hll (loadLlamaTokenizer env (tick w)) rfl
  exact ⟨h1, h2, h3, h4⟩

/-- Witness for C2: with a failing resource provider, both strategies
report the fallback estimate for the five-character text `"hello"`. -/
theorem countStrategies_fallback_witness :
    (countTokensWithTiktoken failEnv "hello" "gpt-4" w0).1.tokens
      = max 1 (("hello".length + 3) / 4)
    ∧ (countTokensWithLlama failEnv "hello" w0).1.tokens
      = max 1 (("hello".length + 3) / 4) :=
  ⟨(countStrategies_fallback failEnv "hello" "gpt-4" w0).1 rfl,
   (countStrategies_fallback failEnv "hello" "gpt-4" w0).2.2.1 rfl⟩

/-! ## C1: auto-router dispatch -/

/-- C1: `countTokensAuto` lower-cases the identifier and dispatches on
substring membership: an OpenAI-family match (which takes priority even
when both sets match) yields the exact strategy on that identifier, a
Llama-family match yields the approximate strategy, and otherwise the
exact strategy runs on the fixed default `"gpt-4"`.  The reported token
count is exactly the dispatched strategy's token count (the router
re-measures `timeMs` end-to-end, per §4.5 of the design). -/
theorem countTokensAuto_dispatch (env : Env) (text model : String)
    (w : World) :
    (isOpenAIModel model = true →
      (countTokensAuto env text model w).1.tokens
        = (countTokensWithTiktoken env text model (tick w)).1.tokens)
    ∧ (isOpenAIModel model = false → isLlamaModel model = true →
      (countTokensAuto env text model w).1.tokens
        = (countTokensWithLlama env text (tick w)).1.tokens)
    ∧ (isOpenAIModel model = false → isLlamaModel model = false →
      (countTokensAuto env text model w).1.tokens
        = (countTokensWithTiktoken env text "gpt-4" (tick w)).1.tokens) := by
  refine ⟨?_, ?_, ?_⟩
  · intro hO
    simp [countTokensAuto, now, hO]
  · intro hO hL
    simp [countTokensAuto, now, hO, hL]
  · intro hO hL
    simp [countTokensAuto, now, hO, hL]

/-- Witness for C1, covering all three dispatch branches: an
OpenAI-family identifier, a Llama-family identifier, and an unrecognized
identifier routed to the default `"gpt-4"`. -/
theorem countTokensAuto_dispatch_witness :
    ((countTokensAuto testEnv "hello" "GPT-4o" w0).1.tokens
      = (countTokensWithTiktoken testEnv "hello" "GPT-4o" (tick w0)).1.tokens)
    ∧ ((countTokensAuto testEnv "hello" "llama-2-7b" w0).1.tokens
      = (countTokensWithLlama testEnv "hello" (tick w0)).1.tokens)
    ∧ ((countTokensAuto testEnv "hello" "unknown-model-x" w0).1.tokens
      = (countTokensWithTiktoken testEnv "hello" "gpt-4" (tick w0)).1.tokens) :=
  ⟨(countTokensAuto_dispatch testEnv "hello" "GPT-4o" w0).1 (by decide),
   (countTokensAuto_dispatch testEnv "hello" "llama-2-7b" w0).2.1
     (by decide) (by decide),
   (countTokensAuto_dispatch testEnv "hello" "unknown-model-x" w0).2.2
     (by decide) (by decide)⟩

/-! ## C3: chat overhead counter -/

lemma chatLoop_ok (e : Encoder) (msgs : List ChatMessage) (acc : Nat)
    (h : ∀ m ∈ msgs, encOk e m.role = true ∧ encOk e m.content = true) :
    chatLoop e msgs acc
      = .ok (acc + (msgs.map
          (fun m => 4 + encLen e m.role + encLen e m.content)).sum) := by
  induction msgs generalizing acc with
  | nil => simp [chatLoop]
  | cons m rest ih =>
    obtain ⟨hr, hc⟩ := h m (List.mem_cons_self m rest)
    have hrest : ∀ m' ∈ rest, encOk e m'.role = true
        ∧ encOk e m'.content = true :=
      fun m' hm' => h m' (List.mem_cons_of_mem m hm')
    cases hre : e.encode m.role with
    | error err => rw [encOk, hre] at hr; exact absurd hr (by simp)
    | ok rawRole =>
      cases hco : e.encode m.content with
      | error err => rw [encOk, hco] at hc; exact absurd hc (by simp)
      | ok rawContent =>
        have hloop := ih (acc + 4 + (normalizeEncodeResult rawRole).length
          + (normalizeEncodeResult rawContent).length) hrest
        have h1 : encLen e m.role = (normalizeEncodeResult rawRole).length := by
          rw [encLen, hre]
        have h2 : encLen e m.content
            = (normalizeEncodeResult rawContent).length := by
          rw [encLen, hco]
        rw [chatLoop, hre, hco]
        simp only [hloop, List.map_cons, List.sum_cons, h1, h2,
          Except.ok.injEq]
        omega

/-- Counterexample to C3 as stated: in an environment whose encoder
loads successfully but whose every encode call throws, the single
message `{role := "user", content := "hi"}` makes `countChatTokens`
propagate the encode failure instead of returning any total — so
"encoder loads successfully" alone does not guarantee the 3 + Σ(4 + …)
total. -/
theorem countChatTokens_encode_failure_cex :
    (loadTiktoken badEnv "gpt-4" w0).1 = .ok badEncoder
    ∧ (countChatTokens badEnv [⟨"user", "hi"⟩] "gpt-4" w0).1
        = .error "boom" :=
  ⟨rfl, rfl⟩

/-- C3 (amended): when the encoder loads successfully AND every encode
of a role or content string succeeds, `countChatTokens` returns exactly
`3 + Σ (4 + |normalized role tokens| + |normalized content tokens|)`;
when the encoder load fails, that failure propagates to the caller
uncaught with no fallback estimate. -/
theorem countChatTokens_spec (env : Env) (msgs : List ChatMessage)
    (model : String) (w : World) :
    (∀ e w1, loadTiktoken env model w = (.ok e, w1) →
      (∀ m ∈ msgs, encOk e m.role = true ∧ encOk e m.content = true) →
      countChatTokens env msgs model w
        = (.ok (3 + (msgs.map
            (fun m => 4 + encLen e m.role + encLen e m.content)).sum), w1))
    ∧ (∀ err w1, loadTiktoken env model w = (.error err, w1) →
      countChatTokens env msgs model w = (.error err, w1)) := by
  constructor
  · intro e w1 hload hok
    rw [countChatTokens, hload]
    simp [chatLoop_ok e msgs 3 hok]
  · intro err w1 hload
    rw [countChatTokens, hload]

/-- Witness for C3 (amended): one user message of `"hi"` under the
codepoint test encoder yields `3 + 4 + 4 + 2 = 13`, and under a failing
provider the load error propagates. -/
theorem countChatTokens_spec_witness :
    countChatTokens testEnv [⟨"user", "hi"⟩] "gpt-4" w0
      = (.ok 13, (loadTiktoken testEnv "gpt-4" w0).2)
    ∧ countChatTokens failEnv [⟨"user", "hi"⟩] "gpt-4" w0
      = (.error "load failed", tick w0) :=
  ⟨(countChatTokens_spec testEnv [⟨"user", "hi"⟩] "gpt-4" w0).1
      testEncoder (loadTiktoken testEnv "gpt-4" w0).2 rfl
      (by intro m hm; constructor <;> rfl),
   (countChatTokens_spec failEnv [⟨"user", "hi"⟩] "gpt-4" w0).2
      "load failed" (tick w0) rfl⟩

/-! ## C7: clearing the cache -/

/-- C7: from any state, after `clearTokenizerCache` the stats report zero
entries, no models, no oldest entry and `llamaLoaded = false`; clearing
is idempotent (so calling it on an already-empty cache is safe and a
no-op); and a subsequent `loadTiktoken` whose resource instantiation
succeeds creates exactly one fresh entry. -/
theorem clearTokenizerCache_spec (env : Env) (model : String) (w : World)
    (e : Encoder) :
    getCacheStats (clearTokenizerCache w)
      = { tiktokenEntries := 0, llamaLoaded := false,
          models := [], oldestEntry := none }
    ∧ clearTokenizerCache (clearTokenizerCache w) = clearTokenizerCache w
    ∧ (env.get_encoding (resolveName model) = .ok e →
      loadTiktoken env model (clearTokenizerCache w)
        = (.ok e,
           { tiktokenCache := [(lowerStr model, ⟨e, model, w.clock + 1⟩)],
             llamaTokenizerCache := none,
             clock := w.clock + 2 })) := by
  refine ⟨rfl, rfl, ?_⟩
  intro hok
  rw [loadTiktoken_eq]
  simp [clearTokenizerCache, alookup, hok]

/-- Witness for C7: clear a populated state, observe empty stats, and
reload `"gpt-4"` successfully. -/
theorem clearTokenizerCache_spec_witness :
    getCacheStats (clearTokenizerCache
        ⟨[("gpt-4", ⟨testEncoder, "gpt-4", 1⟩)], some testEncoder, 2⟩)
      = { tiktokenEntries := 0, llamaLoaded := false,
          models := [], oldestEntry := none }
    ∧ loadTiktoken testEnv "gpt-4" (clearTokenizerCache
        ⟨[("gpt-4", ⟨testEncoder, "gpt-4", 1⟩)], some testEncoder, 2⟩)
      = (.ok testEncoder,
         { tiktokenCache := [("gpt-4", ⟨testEncoder, "gpt-4", 3⟩)],
           llamaTokenizerCache := none,
           clock := 4 }) :=
  ⟨(clearTokenizerCache_spec testEnv "gpt-4"
      ⟨[("gpt-4", ⟨testEncoder, "gpt-4", 1⟩)], some testEncoder, 2⟩
      testEncoder).1,
   by
    have h := (clearTokenizerCache_spec testEnv "gpt-4"
      ⟨[("gpt-4", ⟨testEncoder, "gpt-4", 1⟩)], some testEncoder, 2⟩
      testEncoder).2.2 rfl
    simpa using h⟩

/-! ## C9: encode/decode round trip -/

/-- C9: whenever the loaded encoder round-trips a text — encoding
succeeds, and decoding the normalized token sequence (as `Uint32Array`
contents) succeeds and normalizes back to the original text, which is
what "characters within the scheme's vocabulary" means for the external
resource — `assertEncodeDecodeRoundtrip` returns `true`. -/
theorem assertEncodeDecodeRoundtrip_ok (env : Env) (text model : String)
    (w w1 : World) (e : Encoder) (raw : EncRaw) (d : DecRaw)
    (hload : loadTiktoken env model w = (.ok e, w1))
    (henc : e.encode text = .ok raw)
    (hdec : e.decode ((normalizeEncodeResult raw).map toUint32) = .ok d)
    (hrt : normalizeDecodeResult d = text) :
    (assertEncodeDecodeRoundtrip env text model w).1 = true := by
  rw [assertEncodeDecodeRoundtrip, hload]
  simp [henc, hdec, hrt]

/-- Witness for C9: the codepoint test encoder round-trips `"hi"`. -/
theorem assertEncodeDecodeRoundtrip_ok_witness :
    (assertEncodeDecodeRoundtrip testEnv "hi" "gpt-4" w0).1 = true :=
  assertEncodeDecodeRoundtrip_ok testEnv "hi" "gpt-4" w0
    (loadTiktoken testEnv "gpt-4" w0).2 testEncoder
    (.arr [104, 105]) (.str "hi") rfl rfl rfl rfl

/-! ## C10: cache diagnostics -/

lemma map_fst_of_keysLower (l : List (String × CacheEntry))
    (h : ∀ p ∈ l, p.1 = lowerStr p.2.model) :
    l.map Prod.fst = l.map (fun p => lowerStr p.2.model) := by
  induction l with
  | nil => rfl
  | cons p rest ih =>
    have hp := h p (List.mem_cons_self p rest)
    have hrest := ih (fun q hq => h q (List.mem_cons_of_mem p hq))
    simp only [List.map_cons, hp, hrest]

lemma foldlMin_spec (ts : List Nat) : ∀ t : Nat,
    (∀ x ∈ t :: ts, ts.foldl Nat.min t ≤ x)
    ∧ ts.foldl Nat.min t ∈ t :: ts := by
  induction ts with
  | nil =>
    intro t
    refine ⟨?_, by simp⟩
    intro x hx
    simp at hx
    subst hx
    exact Nat.le_refl _
  | cons a as ih =>
    intro t
    obtain ⟨ihle, ihmem⟩ := ih (Nat.min t a)
    have hfirst : as.foldl Nat.min (Nat.min t a) ≤ Nat.min t a :=
      ihle _ (List.mem_cons_self _ _)
    constructor
    · intro x hx
      rw [List.mem_cons] at hx
      rcases hx with hx | hx
      · rw [hx]
        exact le_trans hfirst (Nat.min_le_left _ _)
      · rw [List.mem_cons] at hx
        rcases hx with hx | hx
        · rw [hx]
          exact le_trans hfirst (Nat.min_le_right _ _)
        · exact ihle x (List.mem_cons_of_mem _ hx)
    · rw [List.mem_cons] at ihmem
      rcases ihmem with hm | hm
      · show as.foldl Nat.min (Nat.min t a) ∈ t :: a :: as
        rw [hm]
        rcases Nat.le_total t a with h | h
        · simp [Nat.min_eq_left h]
        · simp [Nat.min_eq_right h]
      · show as.foldl Nat.min (Nat.min t a) ∈ t :: a :: as
        exact List.mem_cons_of_mem _ (List.mem_cons_of_mem _ hm)

/-- C10: `getCacheStats` (a pure function of the state — it returns no
modified world, so it cannot modify the cache or the singleton) reports
the cache's lower-cased keys in first-insertion order, reports
`llamaLoaded` exactly when the singleton exists, and reports
`oldestEntry` as the minimum `loadedAt` over all entries, or `none` when
the cache is empty; moreover the lower-cased-keys invariant holds in
every reachable state (it is preserved by `loadTiktoken` and by
`clearTokenizerCache`). -/
theorem getCacheStats_reports (w : World) :
    (keysLower w →
      (getCacheStats w).models
        = w.tiktokenCache.map (fun p => lowerStr p.2.model))
    ∧ (getCacheStats w).tiktokenEntries = w.tiktokenCache.length
    ∧ (getCacheStats w).llamaLoaded = w.llamaTokenizerCache.isSome
    ∧ (w.tiktokenCache = [] → (getCacheStats w).oldestEntry = none)
    ∧ (∀ t, (getCacheStats w).oldestEntry = some t →
        (∀ p ∈ w.tiktokenCache, t ≤ p.2.loadedAt)
        ∧ t ∈ w.tiktokenCache.map (fun p => p.2.loadedAt))
    ∧ (w.tiktokenCache ≠ [] → ∃ t, (getCacheStats w).oldestEntry = some t)
    ∧ (∀ env model, keysLower w → keysLower (loadTiktoken env model w).2)
    ∧ keysLower (clearTokenizerCache w) := by
  refine ⟨?_, rfl, rfl, ?_, ?_, ?_, ?_, ?_⟩
  · intro hk
    exact map_fst_of_keysLower w.tiktokenCache hk
  · intro h
    simp [getCacheStats, h]
  · intro t ht
    cases hm : w.tiktokenCache.map (fun p => p.2.loadedAt) with
    | nil =>
      rw [getCacheStats] at ht
      simp only [hm] at ht
      exact absurd ht (by simp)
    | cons a as =>
      rw [getCacheStats] at ht
      simp only [hm, Option.some.injEq] at ht
      obtain ⟨hle, hmem⟩ := foldlMin_spec as a
      rw [ht] at hle hmem
      constructor
      · intro p hp
        have hmm : p.2.loadedAt ∈ a :: as :=
          hm ▸ List.mem_map_of_mem (fun p => p.2.loadedAt) hp
        exact hle _ hmm
      · exact hmem
  · intro h
    cases hm : w.tiktokenCache.map (fun p => p.2.loadedAt) with
    | nil => exact absurd (List.map_eq_nil_iff.mp hm) h
    | cons a as =>
      refine ⟨as.foldl Nat.min a, ?_⟩
      rw [getCacheStats]
      simp only [hm]
  · intro env model hk
    rw [loadTiktoken_eq]
    cases hc : alookup (lowerStr model) w.tiktokenCache with
    | some entry => exact fun p hp => hk p (by simpa [tick] using hp)
    | none =>
      cases hg : env.get_encoding (resolveName model) with
      | error err => exact fun p hp => hk p (by simpa [tick] using hp)
      | ok encoding =>
        intro p hp
        simp only [List.mem_append, List.mem_singleton] at hp
        rcases hp with hp | hp
        · exact hk p hp
        · subst hp
          rfl
  · intro p hp
    simp [clearTokenizerCache] at hp

/-- Witness for C10 on a populated two-entry state: lower-cased keys in
insertion order, the minimum timestamp reported, and the invariant
preserved across a further load. -/
theorem getCacheStats_reports_witness :
    (getCacheStats wStats).models
      = wStats.tiktokenCache.map (fun p => lowerStr p.2.model)
    ∧ ((∀ p ∈ wStats.tiktokenCache, 4 ≤ p.2.loadedAt)
       ∧ 4 ∈ wStats.tiktokenCache.map (fun p => p.2.loadedAt))
    ∧ (∃ t, (getCacheStats wStats).oldestEntry = some t)
    ∧ keysLower (loadTiktoken testEnv "LLaMA-Guard" wStats).2 := by
  have hk : keysLower wStats := by
    intro p hp
    simp only [wStats, List.mem_cons, List.not_mem_nil, or_false] at hp
    rcases hp with h | h <;> subst h <;> decide
  exact ⟨(getCacheStats_reports wStats).1 hk,
   (getCacheStats_reports wStats).2.2.2.2.1 4 rfl,
   (getCacheStats_reports wStats).2.2.2.2.2.1 (List.cons_ne_nil _ _),
   (getCacheStats_reports wStats).2.2.2.2.2.2.1 testEnv "LLaMA-Guard" hk⟩
